import Mathlib

/-!
# Verification of the incremental-metric derivation

Shallow embedding of the data-preparation pipeline in
`visualizing_covid_20210125.ipynb` (the `daily_df` cell):

```python
daily_df = (
    pd.read_csv(DATA_URL, parse_dates=['date'])
        .sort_values(['state', 'date'])
        .rename(columns={'cases': 'cases_total', 'deaths': 'deaths_total'})
        .assign(
            cases_new  = lambda df: df.groupby('state')['cases_total'].diff().clip(lower=0),
            deaths_new = lambda df: df.groupby('state')['deaths_total'].diff().clip(lower=0)
        )
        .query("'2020-01-01' <= date <= '2020-12-31'")
        .reset_index(drop=True)
)
```

The frame is a `List` of rows.  Dates are encoded as `Nat` in `YYYYMMDD`
form, so that comparison of encoded dates agrees with comparison of
ISO-8601 date strings.  Counts are `Int`.  `groupby('state')[col].diff()`
produces a missing value (NaN) on the first row of each state group and
`cur - prev` on every later row, where `prev` is the value on the nearest
earlier row of the same state; `.clip(lower=0)` maps a present value `x`
to `max x 0` and leaves a missing value missing.  Missing values are
modelled by `Option Int` (`none` = NaN).
-/

/-- One input row of the source CSV after the `rename`:
`(state, date, cases_total, deaths_total)`. -/
structure Obs where
  state : String
  date : Nat
  cases_total : Int
  deaths_total : Int
deriving DecidableEq, Repr

/-- One row of `daily_df` after the `assign` step: the input columns plus
the two derived columns, which are `none` where pandas produces NaN. -/
structure Row where
  state : String
  date : Nat
  cases_total : Int
  deaths_total : Int
  cases_new : Option Int
  deaths_new : Option Int
deriving DecidableEq, Repr

/-- The lexicographic (code-point) order on state names used by
`sort_values`: strict lexicographic comparison of the character
sequences. -/
def strLt (s t : String) : Prop := s.data < t.data

instance : DecidableRel strLt := fun a b => by
  unfold strLt; infer_instance

theorem strLt_trichotomy (a b : String) : strLt a b ∨ a = b ∨ strLt b a := by
  rcases lt_trichotomy a.data b.data with h | h | h
  · exact Or.inl h
  · refine Or.inr (Or.inl ?_)
    cases a; cases b; exact congrArg String.mk h
  · exact Or.inr (Or.inr h)

theorem strLt_trans {a b c : String} (h1 : strLt a b) (h2 : strLt b c) :
    strLt a c := lt_trans h1 h2

theorem strLt_irrefl (a : String) : ¬ strLt a a := lt_irrefl _

/-- The sort key order used by `sort_values(['state', 'date'])`:
lexicographic on `(state, date)`, non-strict. -/
def obsLe (a b : Obs) : Prop :=
  strLt a.state b.state ∨ (a.state = b.state ∧ a.date ≤ b.date)

/-- Strict version of the sort key order: lexicographic on
`(state, date)` with a strict date comparison. -/
def obsLt (a b : Obs) : Prop :=
  strLt a.state b.state ∨ (a.state = b.state ∧ a.date < b.date)

instance : DecidableRel obsLe := fun a b => by
  unfold obsLe; infer_instance

instance : DecidableRel obsLt := fun a b => by
  unfold obsLt; infer_instance

instance : IsTotal Obs obsLe where
  total a b := by
    rcases strLt_trichotomy a.state b.state with h | h | h
    · exact Or.inl (Or.inl h)
    · rcases Nat.le_total a.date b.date with h' | h'
      · exact Or.inl (Or.inr ⟨h, h'⟩)
      · exact Or.inr (Or.inr ⟨h.symm, h'⟩)
    · exact Or.inr (Or.inl h)

instance : IsTrans Obs obsLe where
  trans a b c hab hbc := by
    rcases hab with h | ⟨he, hd⟩
    · rcases hbc with h' | ⟨he', _⟩
      · exact Or.inl (strLt_trans h h')
      · exact Or.inl (he' ▸ h)
    · rcases hbc with h' | ⟨he', hd'⟩
      · exact Or.inl (he ▸ h')
      · exact Or.inr ⟨he.trans he', hd.trans hd'⟩

instance : IsTrans Obs obsLt where
  trans a b c hab hbc := by
    rcases hab with h | ⟨he, hd⟩
    · rcases hbc with h' | ⟨he', _⟩
      · exact Or.inl (strLt_trans h h')
      · exact Or.inl (he' ▸ h)
    · rcases hbc with h' | ⟨he', hd'⟩
      · exact Or.inl (he ▸ h')
      · exact Or.inr ⟨he.trans he', hd.trans hd'⟩

instance : IsIrrefl Obs obsLt where
  irrefl a := by
    rintro (h | ⟨_, h⟩)
    · exact strLt_irrefl _ h
    · exact lt_irrefl _ h

instance : IsAntisymm Obs obsLt where
  antisymm a b hab hba := by
    exfalso
    rcases hab with h | ⟨he, hd⟩
    · rcases hba with h' | ⟨he', _⟩
      · exact strLt_irrefl _ (strLt_trans h h')
      · exact strLt_irrefl _ (he' ▸ h)
    · rcases hba with h' | ⟨he', hd'⟩
      · exact strLt_irrefl _ (he ▸ h')
      · exact lt_irrefl _ (hd.trans hd')

/-- `sort_values(['state', 'date'])`: sort the frame by the
`(state, date)` key.  pandas' sort is modelled by a comparison sort; for
inputs with pairwise-distinct `(state, date)` keys the sorted order is
unique, so the choice of algorithm is immaterial there. -/
def sortObs (l : List Obs) : List Obs :=
  l.insertionSort obsLe

/-- `clip(lower=0)` on a present value: `max x 0`. -/
def clip0 (x : Int) : Int := max x 0

/-- The group state of `groupby('state')`: for each state, the
`(cases_total, deaths_total)` of the nearest earlier row of that state,
or `none` if no earlier row of that state exists. -/
def LastMap : Type := String → Option (Int × Int)

/-- Record a newly seen row of state `s` in the group state. -/
def LastMap.update (m : LastMap) (s : String) (v : Int × Int) : LastMap :=
  fun t => if t = s then some v else m t

/-- The group state at the start of the frame: no state seen yet. -/
def emptyLast : LastMap := fun _ => none

/-- The `assign` step on an already-sorted frame:
`cases_new  = groupby('state')['cases_total'].diff().clip(lower=0)` and
`deaths_new = groupby('state')['deaths_total'].diff().clip(lower=0)`.
Each row's derived value is the clipped difference against the nearest
earlier row of the same state (`none`, i.e. NaN, when there is none);
`clip` leaves the NaN of each group's first row untouched. -/
def deriveAux (m : LastMap) : List Obs → List Row
  | [] => []
  | o :: rest =>
    { state := o.state, date := o.date,
      cases_total := o.cases_total, deaths_total := o.deaths_total,
      cases_new := (m o.state).map fun p => clip0 (o.cases_total - p.1),
      deaths_new := (m o.state).map fun p => clip0 (o.deaths_total - p.2) } ::
      deriveAux (m.update o.state (o.cases_total, o.deaths_total)) rest

/-- The frame after `sort_values(['state', 'date'])` and `assign`, before
the date-window `query`. -/
def derivedTable (input : List Obs) : List Row :=
  deriveAux emptyLast (sortObs input)

/-- The date-window predicate of
`query("'2020-01-01' <= date <= '2020-12-31'")` on encoded dates. -/
def inRange (d : Nat) : Bool :=
  decide (20200101 ≤ d) && decide (d ≤ 20201231)

/-- The complete `daily_df` pipeline: sort by `(state, date)`, derive the
incremental columns, keep the rows dated in 2020 (`reset_index` does not
change the row list). -/
def daily_df (input : List Obs) : List Row :=
  (derivedTable input).filter fun r => inRange r.date

/-- The input observation a derived row was built from: the row minus the
two derived columns. -/
def Row.toObs (r : Row) : Obs :=
  { state := r.state, date := r.date,
    cases_total := r.cases_total, deaths_total := r.deaths_total }

/-- An entity's derived Series: the rows of `daily_df` for that state, in
frame order. -/
def seriesRows (e : String) (input : List Obs) : List Row :=
  (derivedTable input).filter fun r => decide (r.state = e)

theorem LastMap.update_same (m : LastMap) (s : String) (v : Int × Int) :
    m.update s v s = some v := by
  simp [LastMap.update]

theorem LastMap.update_other (m : LastMap) (s t : String) (v : Int × Int)
    (h : t ≠ s) : m.update s v t = m t := by
  simp [LastMap.update, h]

/-- Dropping the two derived columns from the derived frame recovers the
frame it was computed from. -/
theorem deriveAux_map_toObs :
    ∀ (S : List Obs) (m : LastMap), (deriveAux m S).map Row.toObs = S
  | [], _ => rfl
  | o :: rest, m => by
    simp [deriveAux, Row.toObs, deriveAux_map_toObs rest]

/-- The first row of state `e` in a derived frame gets its incremental
values from the group state `m` at `e`. -/
theorem deriveAux_find (e : String) :
    ∀ (S : List Obs) (m : LastMap) (r : Row),
      (deriveAux m S).find? (fun r => decide (r.state = e)) = some r →
      r.cases_new = (m e).map (fun p => clip0 (r.cases_total - p.1)) ∧
      r.deaths_new = (m e).map (fun p => clip0 (r.deaths_total - p.2))
  | [], m, r => by simp [deriveAux]
  | o :: rest, m, r => by
    intro h
    rw [deriveAux] at h
    by_cases ho : o.state = e
    · rw [List.find?_cons_of_pos _ (by simpa using ho)] at h
      injection h with h
      subst ho
      simp [← h]
    · rw [List.find?_cons_of_neg _ (by simpa using ho)] at h
      have hupd : m.update o.state (o.cases_total, o.deaths_total) e = m e :=
        LastMap.update_other m o.state e _ (fun he => ho he.symm)
      have := deriveAux_find e rest
        (m.update o.state (o.cases_total, o.deaths_total)) r h
      rwa [hupd] at this

theorem head?_filter_eq_find? {α : Type} (p : α → Bool) :
    ∀ l : List α, (l.filter p).head? = l.find? p
  | [] => rfl
  | a :: l => by
    cases h : p a
    · rw [List.filter_cons, if_neg (by simp [h]),
        List.find?_cons_of_neg _ (by simp [h])]
      exact head?_filter_eq_find? p l
    · rw [List.filter_cons, if_pos (by simp [h]),
        List.find?_cons_of_pos _ h]
      rfl

/-- Two consecutive rows of the same state's derived Series: the second
row's incremental values are the clipped differences of its totals
against the first row's totals. -/
theorem deriveAux_consec (e : String) :
    ∀ (S : List Obs) (m : LastMap) (i : Nat) (ra rb : Row),
      ((deriveAux m S).filter (fun r => decide (r.state = e)))[i]? = some ra →
      ((deriveAux m S).filter (fun r => decide (r.state = e)))[i + 1]? = some rb →
      rb.cases_new = some (clip0 (rb.cases_total - ra.cases_total)) ∧
      rb.deaths_new = some (clip0 (rb.deaths_total - ra.deaths_total))
  | [], _, i, ra, rb => by simp [deriveAux]
  | o :: rest, m, i, ra, rb => by
    intro ha hb
    rw [deriveAux] at ha hb
    by_cases ho : o.state = e
    · rw [List.filter_cons, if_pos (by simpa using ho)] at ha hb
      match i with
      | 0 =>
        rw [List.getElem?_cons_zero] at ha
        injection ha with ha
        rw [List.getElem?_cons_succ, ← List.head?_eq_getElem?,
          head?_filter_eq_find?] at hb
        have hfind := deriveAux_find e rest
          (m.update o.state (o.cases_total, o.deaths_total)) rb hb
        subst ho
        rw [LastMap.update_same] at hfind
        simp only [Option.map_some'] at hfind
        rw [← ha]
        exact hfind
      | i + 1 =>
        rw [List.getElem?_cons_succ] at ha hb
        exact deriveAux_consec e rest _ i ra rb ha hb
    · rw [List.filter_cons, if_neg (by simpa using ho)] at ha hb
      exact deriveAux_consec e rest _ i ra rb ha hb

theorem clip0_nonneg (x : Int) : 0 ≤ clip0 x := le_max_right x 0

theorem clip0_of_nonpos {x : Int} (h : x ≤ 0) : clip0 x = 0 :=
  max_eq_right h

/-- Every present incremental value in a derived frame is a clipped
difference, hence non-negative. -/
theorem deriveAux_nonneg :
    ∀ (S : List Obs) (m : LastMap) (r : Row), r ∈ deriveAux m S →
      (∀ x : Int, r.cases_new = some x → 0 ≤ x) ∧
      (∀ x : Int, r.deaths_new = some x → 0 ≤ x)
  | [], _, r => by simp [deriveAux]
  | o :: rest, m, r => by
    intro hr
    rw [deriveAux, List.mem_cons] at hr
    rcases hr with hr | hr
    · subst hr
      constructor
      · intro x hx
        simp only at hx
        rcases Option.map_eq_some'.mp hx with ⟨p, _, hp⟩
        exact hp ▸ clip0_nonneg _
      · intro x hx
        simp only at hx
        rcases Option.map_eq_some'.mp hx with ⟨p, _, hp⟩
        exact hp ▸ clip0_nonneg _
    · exact deriveAux_nonneg rest _ r hr

/-- Entity locality of the derivation: the rows of state `e` in the
derived frame depend only on the rows of state `e` in the input frame
and on the group state at `e`. -/
theorem deriveAux_filter_state (e : String) :
    ∀ (S : List Obs) (m₁ m₂ : LastMap), m₁ e = m₂ e →
      (deriveAux m₁ S).filter (fun r => decide (r.state = e)) =
        (deriveAux m₂ (S.filter (fun o => decide (o.state = e)))).filter
          (fun r => decide (r.state = e))
  | [], _, _, _ => rfl
  | o :: rest, m₁, m₂, hm => by
    by_cases ho : o.state = e
    · subst ho
      rw [deriveAux, List.filter_cons, if_pos (by simp),
        List.filter_cons, if_pos (by simp), deriveAux, List.filter_cons,
        if_pos (by simp), hm]
      refine congrArg _ ?_
      exact deriveAux_filter_state o.state rest _ _ (by
        rw [LastMap.update_same, LastMap.update_same])
    · rw [deriveAux, List.filter_cons, if_neg (by simpa using ho),
        List.filter_cons, if_neg (by simpa using ho)]
      exact deriveAux_filter_state e rest _ m₂ (by
        rw [LastMap.update_other m₁ o.state e _ (fun he => ho he.symm), hm])

/-- Every row of a derived frame restricted to state `e` has state `e`,
so the restriction filter is the identity there. -/
theorem deriveAux_filter_state_self (e : String) :
    ∀ (S : List Obs) (m : LastMap), (∀ o ∈ S, o.state = e) →
      (deriveAux m S).filter (fun r => decide (r.state = e)) = deriveAux m S
  | [], _, _ => rfl
  | o :: rest, m, h => by
    rw [deriveAux, List.filter_cons, if_pos (by simp [h o (by simp)])]
    refine congrArg _ ?_
    exact deriveAux_filter_state_self e rest _ (fun o' ho' => h o' (by simp [ho']))

/-- `Series.diff().clip(lower=0)` on a single group's column, given the
value of the nearest earlier row of the group (`none` at the start of
the group): the first value is missing, later values are clipped
differences. -/
def diffClipSeries : Option Int → List Int → List (Option Int)
  | _, [] => []
  | prev, v :: t => (prev.map fun p => clip0 (v - p)) :: diffClipSeries (some v) t

/-- The `cases_new` column of one state's derived Series is the
single-group diff-and-clip of that state's `cases_total` column. -/
theorem deriveAux_series_cases (e : String) :
    ∀ (S : List Obs) (m : LastMap),
      ((deriveAux m S).filter (fun r => decide (r.state = e))).map
          (fun r => r.cases_new) =
        diffClipSeries ((m e).map Prod.fst)
          ((S.filter (fun o => decide (o.state = e))).map fun o => o.cases_total)
  | [], _ => rfl
  | o :: rest, m => by
    by_cases ho : o.state = e
    · subst ho
      rw [deriveAux, List.filter_cons, if_pos (by simp), List.filter_cons,
        if_pos (by simp), List.map_cons, List.map_cons, diffClipSeries,
        deriveAux_series_cases o.state rest _]
      rw [LastMap.update_same]
      refine congrArg₂ _ ?_ rfl
      cases m o.state <;> rfl
    · rw [deriveAux, List.filter_cons, if_neg (by simpa using ho),
        List.filter_cons, if_neg (by simpa using ho),
        deriveAux_series_cases e rest _,
        LastMap.update_other m o.state e _ (fun he => ho he.symm)]

/-- The `deaths_new` column of one state's derived Series is the
single-group diff-and-clip of that state's `deaths_total` column. -/
theorem deriveAux_series_deaths (e : String) :
    ∀ (S : List Obs) (m : LastMap),
      ((deriveAux m S).filter (fun r => decide (r.state = e))).map
          (fun r => r.deaths_new) =
        diffClipSeries ((m e).map Prod.snd)
          ((S.filter (fun o => decide (o.state = e))).map fun o => o.deaths_total)
  | [], _ => rfl
  | o :: rest, m => by
    by_cases ho : o.state = e
    · subst ho
      rw [deriveAux, List.filter_cons, if_pos (by simp), List.filter_cons,
        if_pos (by simp), List.map_cons, List.map_cons, diffClipSeries,
        deriveAux_series_deaths o.state rest _]
      rw [LastMap.update_same]
      refine congrArg₂ _ ?_ rfl
      cases m o.state <;> rfl
    · rw [deriveAux, List.filter_cons, if_neg (by simpa using ho),
        List.filter_cons, if_neg (by simpa using ho),
        deriveAux_series_deaths e rest _,
        LastMap.update_other m o.state e _ (fun he => ho he.symm)]

/-- The `cases_total` column of one state's derived Series equals that
state's `cases_total` column of the input frame. -/
theorem deriveAux_series_cases_total (e : String) :
    ∀ (S : List Obs) (m : LastMap),
      ((deriveAux m S).filter (fun r => decide (r.state = e))).map
          (fun r => r.cases_total) =
        (S.filter (fun o => decide (o.state = e))).map fun o => o.cases_total
  | [], _ => rfl
  | o :: rest, m => by
    by_cases ho : o.state = e
    · rw [deriveAux, List.filter_cons, if_pos (by simpa using ho),
        List.filter_cons, if_pos (by simpa using ho), List.map_cons,
        List.map_cons, deriveAux_series_cases_total e rest _]
    · rw [deriveAux, List.filter_cons, if_neg (by simpa using ho),
        List.filter_cons, if_neg (by simpa using ho),
        deriveAux_series_cases_total e rest _]

/-- The sum pandas takes over a column with missing values: NaN entries
are skipped (`skipna=True`), present values are added. -/
def optSum (l : List (Option Int)) : Int := (l.filterMap id).sum

theorem optSum_nil : optSum [] = 0 := rfl

theorem optSum_cons_some (x : Int) (l : List (Option Int)) :
    optSum (some x :: l) = x + optSum l := by
  simp [optSum]

theorem optSum_cons_none (l : List (Option Int)) :
    optSum (none :: l) = optSum l := by
  simp [optSum]

/-- Prefix sums of a clipped diff series with a known predecessor, on a
non-decreasing column: the clip never fires, so the prefix sum
telescopes to `last - predecessor`. -/
theorem diffClip_prefix_some :
    ∀ (t : List Int) (p : Int) (k : Nat), List.Chain (· ≤ ·) p t →
      k < t.length →
      optSum ((diffClipSeries (some p) t).take (k + 1)) = t.getD k 0 - p
  | [], _, k, _, hk => absurd hk (by simp)
  | v :: t, p, 0, hch, _ => by
    rw [List.chain_cons] at hch
    rw [diffClipSeries, List.take_succ_cons, List.take_zero]
    simp only [Option.map_some']
    rw [optSum_cons_some, optSum_nil, List.getD_cons_zero]
    rw [clip0, max_eq_left (by omega)]
    omega
  | v :: t, p, k + 1, hch, hk => by
    rw [List.chain_cons] at hch
    rw [diffClipSeries, List.take_succ_cons]
    simp only [Option.map_some']
    rw [optSum_cons_some, List.getD_cons_succ,
      diffClip_prefix_some t v k hch.2 (by simpa using hk)]
    rw [clip0, max_eq_left (by omega)]
    omega

/-- Prefix sums of a clipped diff series on a non-decreasing column
whose group has no predecessor: the first entry is missing and is
skipped by the sum, so a prefix sum equals `last - first`. -/
theorem diffClip_prefix_none :
    ∀ (vs : List Int) (k : Nat), List.Chain' (· ≤ ·) vs → k < vs.length →
      optSum ((diffClipSeries none vs).take (k + 1)) =
        vs.getD k 0 - vs.getD 0 0
  | [], k, _, hk => absurd hk (by simp)
  | v :: t, 0, _, _ => by
    rw [diffClipSeries, List.take_succ_cons, List.take_zero]
    simp only [Option.map_none']
    rw [optSum_cons_none, optSum_nil, List.getD_cons_zero]
    omega
  | v :: t, k + 1, hch, hk => by
    rw [diffClipSeries, List.take_succ_cons]
    simp only [Option.map_none']
    rw [optSum_cons_none, List.getD_cons_succ, List.getD_cons_zero,
      diffClip_prefix_some t v k hch (by simpa using hk)]

/-- The sort key of a frame row. -/
def obsKey (o : Obs) : String × Nat := (o.state, o.date)

theorem sortObs_perm (l : List Obs) : (sortObs l).Perm l :=
  List.perm_insertionSort obsLe l

theorem sortObs_sorted (l : List Obs) : List.Sorted obsLe (sortObs l) :=
  List.sorted_insertionSort obsLe l

/-- A key-sorted frame with pairwise-distinct keys is strictly
key-sorted. -/
theorem sorted_obsLt_of_nodup {l : List Obs} (hs : List.Sorted obsLe l)
    (hn : (l.map obsKey).Nodup) : List.Pairwise obsLt l := by
  rw [List.Nodup, List.pairwise_map] at hn
  refine (hs.and hn).imp ?_
  rintro a b ⟨hle, hne⟩
  rcases hle with h | ⟨he, hd⟩
  · exact Or.inl h
  · refine Or.inr ⟨he, lt_of_le_of_ne hd ?_⟩
    intro hdd
    exact hne (by simp [obsKey, he, hdd])

/-- On inputs with pairwise-distinct `(state, date)` keys the sorted
order is unique: sorting any permutation of the frame gives the same
sorted frame. -/
theorem sortObs_eq_of_perm {l₁ l₂ : List Obs} (hp : l₁.Perm l₂)
    (hn : (l₁.map obsKey).Nodup) : sortObs l₁ = sortObs l₂ := by
  have hn₂ : (l₂.map obsKey).Nodup := ((hp.map obsKey).nodup_iff).mp hn
  refine List.eq_of_perm_of_sorted
    ((sortObs_perm l₁).trans (hp.trans (sortObs_perm l₂).symm))
    (sorted_obsLt_of_nodup (sortObs_sorted l₁) ?_)
    (sorted_obsLt_of_nodup (sortObs_sorted l₂) ?_)
  · exact (((sortObs_perm l₁).map obsKey).nodup_iff).mpr hn
  · exact (((sortObs_perm l₂).map obsKey).nodup_iff).mpr hn₂

/-- On inputs with pairwise-distinct keys, restricting the sorted frame
to one state is the same as sorting the restricted input. -/
theorem sortObs_filter_state (e : String) {l : List Obs}
    (hn : (l.map obsKey).Nodup) :
    (sortObs l).filter (fun o => decide (o.state = e)) =
      sortObs (l.filter fun o => decide (o.state = e)) := by
  have hperm : ((sortObs l).filter (fun o => decide (o.state = e))).Perm
      (l.filter fun o => decide (o.state = e)) :=
    (sortObs_perm l).filter _
  have hperm' : (sortObs (l.filter fun o => decide (o.state = e))).Perm
      (l.filter fun o => decide (o.state = e)) :=
    sortObs_perm _
  have hnf : ((l.filter fun o => decide (o.state = e)).map obsKey).Nodup :=
    List.Nodup.sublist (List.Sublist.map obsKey (List.filter_sublist l)) hn
  refine List.eq_of_perm_of_sorted (hperm.trans hperm'.symm)
    (sorted_obsLt_of_nodup ((sortObs_sorted l).filter _) ?_)
    (sorted_obsLt_of_nodup (sortObs_sorted _) ?_)
  · exact (hperm.map obsKey).nodup_iff.mpr hnf
  · exact (hperm'.map obsKey).nodup_iff.mpr hnf

/-- The `(state, date)` order on output rows, non-strict. -/
def rowLe (a b : Row) : Prop :=
  strLt a.state b.state ∨ (a.state = b.state ∧ a.date ≤ b.date)

/-- Derivation adds columns but never reorders rows, so a key-sorted
input frame yields a key-sorted derived frame. -/
theorem deriveAux_pairwise {S : List Obs} (m : LastMap)
    (hs : List.Pairwise obsLe S) : List.Pairwise rowLe (deriveAux m S) := by
  have h : List.Pairwise obsLe ((deriveAux m S).map Row.toObs) := by
    rwa [deriveAux_map_toObs]
  rw [List.pairwise_map] at h
  exact h.imp (fun hab => hab)

/-- Membership transfer: every derived row was built from an input row. -/
theorem deriveAux_mem :
    ∀ (S : List Obs) (m : LastMap) (r : Row), r ∈ deriveAux m S →
      r.toObs ∈ S
  | [], _, r => by simp [deriveAux]
  | o :: rest, m, r => by
    intro hr
    rw [deriveAux, List.mem_cons] at hr
    rcases hr with hr | hr
    · subst hr
      simp [Row.toObs]
    · exact List.mem_cons_of_mem _ (deriveAux_mem rest _ r hr)

/-- The dates of the derived frame are the dates of the input frame. -/
theorem deriveAux_map_date (S : List Obs) (m : LastMap) :
    (deriveAux m S).map (fun r => r.date) = S.map fun o => o.date := by
  have h := congrArg (List.map fun o => o.date) (deriveAux_map_toObs S m)
  rwa [List.map_map] at h

/-- A row transformation that can change the two count columns but keeps
the sort key `(state, date)` of every row. -/
def KeepsKey (g : Obs → Obs) : Prop :=
  (∀ o, (g o).state = o.state) ∧ ∀ o, (g o).date = o.date

theorem obsLe_map_iff {g : Obs → Obs} (hg : KeepsKey g) (a b : Obs) :
    obsLe (g a) (g b) ↔ obsLe a b := by
  unfold obsLe
  rw [hg.1, hg.1, hg.2, hg.2]

theorem orderedInsert_map {g : Obs → Obs} (hg : KeepsKey g) (a : Obs) :
    ∀ s : List Obs,
      List.orderedInsert obsLe (g a) (s.map g) =
        (List.orderedInsert obsLe a s).map g
  | [] => rfl
  | b :: s => by
    by_cases h : obsLe a b
    · rw [List.map_cons, List.orderedInsert, List.orderedInsert,
        if_pos ((obsLe_map_iff hg a b).mpr h), if_pos h, List.map_cons,
        List.map_cons]
    · rw [List.map_cons, List.orderedInsert, List.orderedInsert,
        if_neg (fun hc => h ((obsLe_map_iff hg a b).mp hc)), if_neg h,
        List.map_cons, orderedInsert_map hg a s]

/-- Sorting commutes with a transformation that keeps every row's sort
key. -/
theorem sortObs_map {g : Obs → Obs} (hg : KeepsKey g) :
    ∀ l : List Obs, sortObs (l.map g) = (sortObs l).map g
  | [] => rfl
  | a :: l => by
    show List.insertionSort obsLe (g a :: l.map g) = _
    rw [List.insertionSort]
    have hrec : List.insertionSort obsLe (l.map g) = (sortObs l).map g :=
      sortObs_map hg l
    rw [hrec, orderedInsert_map hg a (sortObs l)]
    rfl

/-- The `(state, date, deaths_new)` projection of a row. -/
def deathsCol (r : Row) : String × Nat × Option Int := (r.state, r.date, r.deaths_new)

/-- The `(state, date, cases_new)` projection of a row. -/
def casesCol (r : Row) : String × Nat × Option Int := (r.state, r.date, r.cases_new)

/-- The derived deaths column depends only on the `(state, date,
deaths_total)` columns of the frame: a transformation keeping those
columns (but possibly changing `cases_total`) leaves the projected
deaths output unchanged. -/
theorem deriveAux_deaths_of_keep {g : Obs → Obs} (hg : KeepsKey g)
    (hdt : ∀ o, (g o).deaths_total = o.deaths_total) :
    ∀ (S : List Obs) (m₁ m₂ : LastMap),
      (∀ st, (m₁ st).map Prod.snd = (m₂ st).map Prod.snd) →
      (deriveAux m₁ (S.map g)).map deathsCol = (deriveAux m₂ S).map deathsCol
  | [], _, _, _ => rfl
  | o :: rest, m₁, m₂, hm => by
    rw [List.map_cons, deriveAux, deriveAux, List.map_cons, List.map_cons]
    refine congrArg₂ _ ?_ ?_
    · show ((g o).state, (g o).date,
        (m₁ (g o).state).map fun p => clip0 ((g o).deaths_total - p.2)) = _
      rw [hg.1, hg.2, hdt]
      have h := congrArg (Option.map fun x => clip0 (o.deaths_total - x))
        (hm o.state)
      rw [Option.map_map, Option.map_map] at h
      exact congrArg _ (congrArg _ h)
    · rw [hg.1, hdt]
      refine deriveAux_deaths_of_keep hg hdt rest _ _ ?_
      intro st
      by_cases hst : st = o.state
      · subst hst
        rw [LastMap.update_same, LastMap.update_same]
        rfl
      · rw [LastMap.update_other _ _ _ _ hst, LastMap.update_other _ _ _ _ hst]
        exact hm st

/-- The derived cases column depends only on the `(state, date,
cases_total)` columns of the frame. -/
theorem deriveAux_cases_of_keep {g : Obs → Obs} (hg : KeepsKey g)
    (hct : ∀ o, (g o).cases_total = o.cases_total) :
    ∀ (S : List Obs) (m₁ m₂ : LastMap),
      (∀ st, (m₁ st).map Prod.fst = (m₂ st).map Prod.fst) →
      (deriveAux m₁ (S.map g)).map casesCol = (deriveAux m₂ S).map casesCol
  | [], _, _, _ => rfl
  | o :: rest, m₁, m₂, hm => by
    rw [List.map_cons, deriveAux, deriveAux, List.map_cons, List.map_cons]
    refine congrArg₂ _ ?_ ?_
    · show ((g o).state, (g o).date,
        (m₁ (g o).state).map fun p => clip0 ((g o).cases_total - p.1)) = _
      rw [hg.1, hg.2, hct]
      have h := congrArg (Option.map fun x => clip0 (o.cases_total - x))
        (hm o.state)
      rw [Option.map_map, Option.map_map] at h
      exact congrArg _ (congrArg _ h)
    · rw [hg.1, hct]
      refine deriveAux_cases_of_keep hg hct rest _ _ ?_
      intro st
      by_cases hst : st = o.state
      · subst hst
        rw [LastMap.update_same, LastMap.update_same]
        rfl
      · rw [LastMap.update_other _ _ _ _ hst, LastMap.update_other _ _ _ _ hst]
        exact hm st

/-- Filtering by a predicate that factors through a projection preserves
equality of projected lists. -/
theorem filter_map_eq {α β : Type} (f : α → β) (p : α → Bool) (q : β → Bool)
    (hpq : ∀ x, p x = q (f x)) :
    ∀ l₁ l₂ : List α, l₁.map f = l₂.map f →
      (l₁.filter p).map f = (l₂.filter p).map f
  | [], l₂, h => by
    rw [List.map_nil] at h
    have h2 : l₂ = [] := by rwa [eq_comm, List.map_eq_nil_iff] at h
    subst h2
    rfl
  | a :: t₁, l₂, h => by
    cases l₂ with
    | nil => simp at h
    | cons b t₂ =>
      rw [List.map_cons, List.map_cons] at h
      injection h with hab ht
      rw [List.filter_cons, List.filter_cons]
      have hp : p b = p a := by rw [hpq, hpq, hab]
      by_cases hpa : p a
      · rw [if_pos hpa, if_pos (hp.trans hpa), List.map_cons, List.map_cons,
          hab, filter_map_eq f p q hpq t₁ t₂ ht]
      · rw [if_neg hpa, if_neg (fun hc => hpa (hp ▸ hc))]
        exact filter_map_eq f p q hpq t₁ t₂ ht

/-- The per-entity derived sequence of `(date, cases_new, deaths_new)`
triples, read off the final `daily_df` output. -/
def entityPairs (e : String) (input : List Obs) :
    List (Nat × Option Int × Option Int) :=
  ((daily_df input).filter fun r => decide (r.state = e)).map fun r =>
    (r.date, r.cases_new, r.deaths_new)

theorem filter_swap {α : Type} (p q : α → Bool) (l : List α) :
    (l.filter p).filter q = (l.filter q).filter p := by
  rw [List.filter_filter, List.filter_filter]
  exact List.filter_congr fun a _ => by rw [Bool.and_comm]

/-- C1, counterexample: the claim that the first DerivedObservation of
an entity's Series has `incremental_count` equal to its own
`cumulative_count` is false: on the single-Observation input
`("CA", 2020-03-01, 100)` the code's `diff()` leaves the first row's
incremental value missing (NaN), not `100`. -/
theorem C1_counterexample :
    ¬ (∀ (input : List Obs) (e : String) (r : Row),
        (seriesRows e input).head? = some r →
        r.cases_new = some r.cases_total) := by
  intro h
  have := h [⟨"CA", 20200301, 100, 2⟩] "CA"
    ⟨"CA", 20200301, 100, 2, none, none⟩ (by decide)
  exact absurd this (by decide)

/-- C1 (amended): for every entity, the first DerivedObservation of the
entity's date-sorted Series has a missing incremental value (NaN) in
both derived columns — `diff()` has no prior reference and `clip` keeps
the NaN — rather than its own cumulative count; in particular an
entity with a single Observation yields a missing incremental value. -/
theorem C1_first_incremental_missing (input : List Obs) (e : String)
    (r : Row) (h : (seriesRows e input).head? = some r) :
    r.cases_new = none ∧ r.deaths_new = none := by
  unfold seriesRows derivedTable at h
  rw [head?_filter_eq_find?] at h
  have := deriveAux_find e (sortObs input) emptyLast r h
  simpa [emptyLast] using this

/-- Witness for C1 at the single-Observation entity `"NY"` with
cumulative count 75. -/
theorem C1_witness :
    (seriesRows "NY" [⟨"NY", 20200415, 75, 3⟩]).head? =
      some ⟨"NY", 20200415, 75, 3, none, none⟩ ∧
    (⟨"NY", 20200415, 75, 3, none, none⟩ : Row).cases_new = none ∧
    (⟨"NY", 20200415, 75, 3, none, none⟩ : Row).deaths_new = none :=
  ⟨by decide,
    C1_first_incremental_missing [⟨"NY", 20200415, 75, 3⟩] "NY" _ (by decide)⟩

/-- C2, counterexample: on entity `"CA"` with cumulative counts
`[100, 150, 140, 200]` over four consecutive dates the pipeline does
not produce `[100, 50, 0, 60]`: the first value is missing (NaN). -/
theorem C2_counterexample :
    (daily_df [⟨"CA", 20200101, 100, 0⟩, ⟨"CA", 20200102, 150, 0⟩,
               ⟨"CA", 20200103, 140, 0⟩, ⟨"CA", 20200104, 200, 0⟩]).map
        (fun r => r.cases_new) ≠
      [some 100, some 50, some 0, some 60] := by decide

/-- C2 (amended): on entity `"CA"` with cumulative counts
`[100, 150, 140, 200]` over four consecutive dates the pipeline
produces the incremental values `[NaN, 50, 0, 60]` in date order: the
first entry is missing, the negative raw difference is clipped to 0. -/
theorem C2_example_output :
    (daily_df [⟨"CA", 20200101, 100, 0⟩, ⟨"CA", 20200102, 150, 0⟩,
               ⟨"CA", 20200103, 140, 0⟩, ⟨"CA", 20200104, 200, 0⟩]).map
        (fun r => (r.date, r.cases_new)) =
      [(20200101, none), (20200102, some 50),
       (20200103, some 0), (20200104, some 60)] := by decide

/-- C3: every present incremental value in the output is non-negative:
each one is produced as `clip(lower=0)` of a difference. -/
theorem C3_incremental_nonneg (input : List Obs) (r : Row)
    (h : r ∈ daily_df input) :
    (∀ x : Int, r.cases_new = some x → 0 ≤ x) ∧
    (∀ x : Int, r.deaths_new = some x → 0 ≤ x) := by
  unfold daily_df derivedTable at h
  exact deriveAux_nonneg _ _ r (List.mem_of_mem_filter h)

/-- Witness for C3: a present incremental value on a two-row input. -/
theorem C3_witness :
    (⟨"CA", 20200102, 150, 7, some 50, some 7⟩ : Row) ∈
      daily_df [⟨"CA", 20200101, 100, 0⟩, ⟨"CA", 20200102, 150, 7⟩] ∧
    (0 : Int) ≤ 50 :=
  ⟨by decide,
    (C3_incremental_nonneg
        [⟨"CA", 20200101, 100, 0⟩, ⟨"CA", 20200102, 150, 7⟩]
        ⟨"CA", 20200102, 150, 7, some 50, some 7⟩ (by decide)).1 50 rfl⟩

/-- C4: when an entity's cumulative count decreases between two
consecutive rows of its date-sorted Series, the later row's incremental
value is exactly `some 0`: the negative difference is clipped, no error
is raised and no flag is produced (the derivation is a total
function). -/
theorem C4_decrease_clipped_to_zero (input : List Obs) (e : String)
    (i : Nat) (ra rb : Row)
    (ha : (seriesRows e input)[i]? = some ra)
    (hb : (seriesRows e input)[i + 1]? = some rb) :
    (rb.cases_total < ra.cases_total → rb.cases_new = some 0) ∧
    (rb.deaths_total < ra.deaths_total → rb.deaths_new = some 0) := by
  unfold seriesRows derivedTable at ha hb
  have h := deriveAux_consec e (sortObs input) emptyLast i ra rb ha hb
  constructor
  · intro hlt
    rw [h.1, clip0_of_nonpos (by omega)]
  · intro hlt
    rw [h.2, clip0_of_nonpos (by omega)]

/-- Witness for C4: a cumulative count correction from 100 down to 90
yields an incremental value of exactly 0. -/
theorem C4_witness :
    (seriesRows "CA" [⟨"CA", 20200101, 100, 5⟩, ⟨"CA", 20200102, 90, 5⟩])[0]? =
      some ⟨"CA", 20200101, 100, 5, none, none⟩ ∧
    (seriesRows "CA" [⟨"CA", 20200101, 100, 5⟩, ⟨"CA", 20200102, 90, 5⟩])[1]? =
      some ⟨"CA", 20200102, 90, 5, some 0, some 0⟩ ∧
    (⟨"CA", 20200102, 90, 5, some 0, some 0⟩ : Row).cases_new = some 0 :=
  ⟨by decide, by decide,
    (C4_decrease_clipped_to_zero
        [⟨"CA", 20200101, 100, 5⟩, ⟨"CA", 20200102, 90, 5⟩] "CA" 0
        ⟨"CA", 20200101, 100, 5, none, none⟩
        ⟨"CA", 20200102, 90, 5, some 0, some 0⟩
        (by decide) (by decide)).1 (by decide)⟩

/-- C5, counterexample: on the single-Observation entity `"NY"` with
cumulative count 75 (trivially non-decreasing), the sum of the
incremental column over the whole Series is 0 — the lone entry is NaN
and pandas' sum skips it — not the cumulative count 75 at the last
date. -/
theorem C5_counterexample :
    List.Chain' (· ≤ ·)
      ((seriesRows "NY" [⟨"NY", 20200415, 75, 3⟩]).map fun r => r.cases_total) ∧
    optSum (((seriesRows "NY" [⟨"NY", 20200415, 75, 3⟩]).map
        (fun r => r.cases_new)).take 1) = 0 ∧
    ((seriesRows "NY" [⟨"NY", 20200415, 75, 3⟩]).map
        (fun r => r.cases_total)).getD 0 0 = 75 ∧
    (0 : Int) ≠ 75 := by
  refine ⟨?_, by decide, by decide, by decide⟩
  rw [show (seriesRows "NY" [⟨"NY", 20200415, 75, 3⟩]).map
      (fun r => r.cases_total) = [75] from by decide]
  exact List.chain'_singleton _

/-- C5 (amended): for an entity whose cumulative column is
non-decreasing along its date-sorted Series, the sum of the present
incremental values over a prefix (the first entry is NaN and
contributes nothing to the sum) equals the cumulative count at the
last date of the prefix minus the cumulative count at the first date
of the Series — not minus zero. -/
theorem C5_prefix_sum (input : List Obs) (e : String) (k : Nat)
    (hmono : List.Chain' (· ≤ ·)
      ((seriesRows e input).map fun r => r.cases_total))
    (hk : k < (seriesRows e input).length) :
    optSum (((seriesRows e input).map (fun r => r.cases_new)).take (k + 1)) =
      ((seriesRows e input).map fun r => r.cases_total).getD k 0 -
        ((seriesRows e input).map fun r => r.cases_total).getD 0 0 := by
  have hc : (seriesRows e input).map (fun r => r.cases_new) =
      diffClipSeries none ((seriesRows e input).map fun r => r.cases_total) := by
    unfold seriesRows derivedTable
    rw [deriveAux_series_cases e (sortObs input) emptyLast,
      ← deriveAux_series_cases_total e (sortObs input) emptyLast]
    rfl
  rw [hc]
  exact diffClip_prefix_none _ k hmono (by simpa using hk)

/-- Witness for C5: entity `"CA"` with cumulative counts `[100, 150]`;
the prefix sum over both dates is `50 = 150 - 100`. -/
theorem C5_witness :
    optSum (((seriesRows "CA" [⟨"CA", 20200101, 100, 0⟩,
        ⟨"CA", 20200102, 150, 0⟩]).map (fun r => r.cases_new)).take 2) =
      ((seriesRows "CA" [⟨"CA", 20200101, 100, 0⟩,
          ⟨"CA", 20200102, 150, 0⟩]).map fun r => r.cases_total).getD 1 0 -
        ((seriesRows "CA" [⟨"CA", 20200101, 100, 0⟩,
            ⟨"CA", 20200102, 150, 0⟩]).map fun r => r.cases_total).getD 0 0 :=
  C5_prefix_sum [⟨"CA", 20200101, 100, 0⟩, ⟨"CA", 20200102, 150, 0⟩]
    "CA" 1
    (by
      rw [show (seriesRows "CA" [⟨"CA", 20200101, 100, 0⟩,
          ⟨"CA", 20200102, 150, 0⟩]).map (fun r => r.cases_total) =
          [100, 150] from by decide]
      exact List.chain'_cons.mpr ⟨by norm_num, List.chain'_singleton _⟩)
    (by decide)

/-- C6, counterexample: the pipeline does not keep one output row per
input Observation: an Observation dated 2021-01-05 is dropped by the
`query` date window, so a one-row input yields an empty output. -/
theorem C6_counterexample :
    (daily_df [⟨"WA", 20210105, 10, 1⟩]).length = 0 ∧
    ([(⟨"WA", 20210105, 10, 1⟩ : Obs)]).length = 1 ∧ (0 : Nat) ≠ 1 := by
  refine ⟨by decide, by decide, by decide⟩

/-- C6 (amended): the pipeline produces exactly one DerivedObservation
per input Observation whose date lies in the window
2020-01-01 … 2020-12-31; Observations dated outside the window are
dropped by the `query` step and no other row is dropped or added. -/
theorem C6_output_cardinality (input : List Obs) :
    (daily_df input).length = (input.filter fun o => inRange o.date).length := by
  unfold daily_df derivedTable
  rw [← List.countP_eq_length_filter, ← List.countP_eq_length_filter]
  have h1 : List.countP (fun r => inRange r.date)
      (deriveAux emptyLast (sortObs input)) =
      List.countP (fun o => inRange o.date)
        ((deriveAux emptyLast (sortObs input)).map Row.toObs) :=
    (List.countP_map (fun o : Obs => inRange o.date) Row.toObs
      (deriveAux emptyLast (sortObs input))).symm
  rw [h1, deriveAux_map_toObs]
  exact (sortObs_perm input).countP_eq _

/-- C7: on inputs with pairwise-distinct `(entity, date)` keys, every
entity's derived sequence of `(date, incremental)` pairs is unchanged
by permuting the input rows, and is the same as what the entity's rows
alone would produce: derivation is order-independent and
entity-local. -/
theorem C7_order_and_entity_independence (input input' : List Obs)
    (e : String) (hperm : input.Perm input')
    (hnd : (input.map obsKey).Nodup) :
    entityPairs e input' = entityPairs e input ∧
    entityPairs e input =
      entityPairs e (input.filter fun o => decide (o.state = e)) := by
  constructor
  · unfold entityPairs daily_df derivedTable
    rw [sortObs_eq_of_perm hperm hnd]
  · unfold entityPairs daily_df derivedTable
    simp only [filter_swap (fun r : Row => inRange r.date)
      (fun r : Row => decide (r.state = e))]
    rw [deriveAux_filter_state e (sortObs input) emptyLast emptyLast rfl,
      sortObs_filter_state e hnd]

/-- Witness for C7: two entities `"CA"` and `"NY"`, input given in both
orders. -/
theorem C7_witness :
    entityPairs "CA" [⟨"NY", 20200301, 20, 2⟩, ⟨"CA", 20200301, 10, 1⟩] =
      entityPairs "CA" [⟨"CA", 20200301, 10, 1⟩, ⟨"NY", 20200301, 20, 2⟩] ∧
    entityPairs "CA" [⟨"CA", 20200301, 10, 1⟩, ⟨"NY", 20200301, 20, 2⟩] =
      entityPairs "CA" ([⟨"CA", 20200301, 10, 1⟩,
        ⟨"NY", 20200301, 20, 2⟩].filter fun o => decide (o.state = "CA")) :=
  C7_order_and_entity_independence
    [⟨"CA", 20200301, 10, 1⟩, ⟨"NY", 20200301, 20, 2⟩]
    [⟨"NY", 20200301, 20, 2⟩, ⟨"CA", 20200301, 10, 1⟩]
    "CA" (by decide) (by decide)

/-- C8: the two metrics are derived independently by the same
algorithm: any change of the `cases_total` column (keeping each row's
state and date) leaves the projected `(state, date, deaths_new)` output
unchanged, and any change of the `deaths_total` column leaves the
projected `(state, date, cases_new)` output unchanged. -/
theorem C8_metric_independence (input : List Obs) (g : Obs → Obs)
    (hg : KeepsKey g) :
    ((∀ o, (g o).deaths_total = o.deaths_total) →
      (daily_df (input.map g)).map deathsCol = (daily_df input).map deathsCol) ∧
    ((∀ o, (g o).cases_total = o.cases_total) →
      (daily_df (input.map g)).map casesCol = (daily_df input).map casesCol) := by
  constructor
  · intro hdt
    have hrows : (derivedTable (input.map g)).map deathsCol =
        (derivedTable input).map deathsCol := by
      unfold derivedTable
      rw [sortObs_map hg]
      exact deriveAux_deaths_of_keep hg hdt (sortObs input)
        emptyLast emptyLast (fun st => rfl)
    unfold daily_df
    exact filter_map_eq deathsCol (fun r => inRange r.date)
      (fun t => inRange t.2.1) (fun r => rfl) _ _ hrows
  · intro hct
    have hrows : (derivedTable (input.map g)).map casesCol =
        (derivedTable input).map casesCol := by
      unfold derivedTable
      rw [sortObs_map hg]
      exact deriveAux_cases_of_keep hg hct (sortObs input)
        emptyLast emptyLast (fun st => rfl)
    unfold daily_df
    exact filter_map_eq casesCol (fun r => inRange r.date)
      (fun t => inRange t.2.1) (fun r => rfl) _ _ hrows

/-- A concrete cases-only edit: add 7 to every row's `cases_total`. -/
def bumpCases (o : Obs) : Obs :=
  { o with cases_total := o.cases_total + 7 }

/-- Witness for C8: bumping the cases column leaves the deaths output
unchanged. -/
theorem C8_witness :
    (daily_df (([⟨"CA", 20200601, 5, 1⟩] : List Obs).map bumpCases)).map deathsCol =
      (daily_df [⟨"CA", 20200601, 5, 1⟩]).map deathsCol :=
  (C8_metric_independence [⟨"CA", 20200601, 5, 1⟩] bumpCases
      ⟨fun _ => rfl, fun _ => rfl⟩).1 (fun _ => rfl)

/-- C9: the derivation is a pure transformation that adds the two
incremental columns and never alters the original ones: every output
row's `(state, date, cases_total, deaths_total)` quadruple is an input
Observation. -/
theorem C9_no_mutation (input : List Obs) (r : Row)
    (h : r ∈ daily_df input) :
    (⟨r.state, r.date, r.cases_total, r.deaths_total⟩ : Obs) ∈ input := by
  unfold daily_df derivedTable at h
  have hr := deriveAux_mem (sortObs input) emptyLast r
    (List.mem_of_mem_filter h)
  exact (sortObs_perm input).subset hr

/-- Witness for C9 at a one-row input. -/
theorem C9_witness :
    (⟨"CA", 20200601, 5, 1, none, none⟩ : Row) ∈
      daily_df [⟨"CA", 20200601, 5, 1⟩] ∧
    (⟨"CA", 20200601, 5, 1⟩ : Obs) ∈ ([⟨"CA", 20200601, 5, 1⟩] : List Obs) :=
  ⟨by decide,
    C9_no_mutation [⟨"CA", 20200601, 5, 1⟩]
      ⟨"CA", 20200601, 5, 1, none, none⟩ (by decide)⟩

/-- C10: the output table is ordered by `(state, date)` ascending: any
earlier row either has a lexicographically smaller state, or the same
state and a date no larger — so each entity's rows are contiguous and
date-sorted. -/
theorem C10_output_sorted (input : List Obs) :
    List.Pairwise rowLe (daily_df input) := by
  unfold daily_df derivedTable
  exact List.Pairwise.sublist (List.filter_sublist _)
    (deriveAux_pairwise emptyLast (sortObs_sorted input))
